import Mathlib

/-!
# Verification of the meal-planner core (src/app.js)

Shallow embedding of the plan / shopping-list engine of the meal planner.

Modelling conventions:
* JS objects used as string-keyed maps (`currentPlan`, `consolidated`) are
  embedded as association lists `List (String × v)` in insertion order;
  `objGet` is property lookup (`none` = property absent, i.e. `undefined`),
  `objSet` is property assignment (updates in place, or appends a new key,
  matching JS insertion-order semantics for non-index keys).
* Slot values are `Option String` (`none` = JS `null`, `some s` = a string).
* Ingredient quantities are embedded as `ℚ`.  All quantities appearing in the
  program and the claims are small dyadic rationals (halves), on which JS
  float arithmetic is exact, so `ℚ` is a faithful model of the arithmetic.
* Dates are embedded as `ℤ` = civil days since 1970-01-01 (the day a JS
  `Date` denotes in local time); `getDay`, `getFullYear`/`getMonth`/`getDate`
  are modelled by day-of-week arithmetic and the standard civil-from-days
  calendar conversion (proleptic Gregorian, as used by JS `Date`).
* `localeCompare` is modelled by code-unit string comparison; the only
  property of the comparator any theorem below relies on is that identical
  strings compare equal, which holds for `localeCompare` in every locale.
  JS `Array.prototype.sort` is stable, modelled by a stable insertion sort.
-/

namespace MealPlanner

/-- `ALL_DAYS` from app.js: the 7 day keys in canonical order. -/
def ALL_DAYS : List String := ["mon", "tue", "wed", "thu", "fri", "sat", "sun"]

/-- `MEALS_OF_DAY` from app.js: lunch and dinner only. -/
def MEALS_OF_DAY : List String := ["lunch", "dinner"]

/-- `PEOPLE` from app.js: the fixed 3-member household. -/
def PEOPLE : List String := ["steve", "zoe", "dylan"]

/-- `slotKey(day, meal, person)` from app.js. -/
def slotKey (day meal person : String) : String :=
  day ++ "-" ++ meal ++ "-" ++ person

/-- The 42 canonical slot keys, in the iteration order used throughout
app.js (`ALL_DAYS` × `MEALS_OF_DAY` × `PEOPLE`). -/
def slotKeys : List String :=
  ALL_DAYS.flatMap fun day =>
    MEALS_OF_DAY.flatMap fun meal =>
      PEOPLE.map fun person => slotKey day meal person

/-- An ingredient record of a meal (quantity is per person). -/
structure Ingredient where
  name : String
  quantity : ℚ
  unit : String
  deriving Repr, DecidableEq

/-- A meal record (`DEFAULT_MEALS` entry shape in app.js). -/
structure Meal where
  id : String
  name : String
  instructions : String
  prepTime : String
  cookTime : String
  source : String
  ingredients : List Ingredient
  deriving Repr, DecidableEq

/-- `DEFAULT_MEALS` from app.js: the built-in fallback catalog. -/
def DEFAULT_MEALS : List Meal :=
  [ { id := "spaghetti-bolognese", name := "Spaghetti Bolognese",
      instructions := "", prepTime := "", cookTime := "", source := "",
      ingredients :=
        [ ⟨"Spaghetti", 100, "g"⟩,
          ⟨"Beef Mince", 150, "g"⟩,
          ⟨"Tinned Chopped Tomatoes", 0.5, "tin"⟩,
          ⟨"Onion", 0.5, ""⟩,
          ⟨"Garlic Cloves", 1, ""⟩,
          ⟨"Olive Oil", 1, "tbsp"⟩,
          ⟨"Parmesan", 20, "g"⟩ ] },
    { id := "chicken-stir-fry", name := "Chicken Stir Fry",
      instructions := "", prepTime := "", cookTime := "", source := "",
      ingredients :=
        [ ⟨"Chicken Breast", 150, "g"⟩,
          ⟨"Egg Noodles", 100, "g"⟩,
          ⟨"Soy Sauce", 2, "tbsp"⟩,
          ⟨"Mixed Peppers", 1, ""⟩,
          ⟨"Spring Onions", 2, ""⟩,
          ⟨"Garlic Cloves", 1, ""⟩,
          ⟨"Sesame Oil", 1, "tsp"⟩ ] },
    { id := "beans-on-toast", name := "Beans on Toast",
      instructions := "", prepTime := "", cookTime := "", source := "",
      ingredients :=
        [ ⟨"Baked Beans", 0.5, "tin"⟩,
          ⟨"Bread", 2, "slices"⟩,
          ⟨"Butter", 10, "g"⟩,
          ⟨"Cheddar Cheese", 30, "g"⟩ ] },
    { id := "salmon-and-veg", name := "Salmon & Roasted Veg",
      instructions := "", prepTime := "", cookTime := "", source := "",
      ingredients :=
        [ ⟨"Salmon Fillet", 1, ""⟩,
          ⟨"Broccoli", 100, "g"⟩,
          ⟨"Sweet Potato", 1, ""⟩,
          ⟨"Olive Oil", 1, "tbsp"⟩,
          ⟨"Lemon", 0.5, ""⟩ ] },
    { id := "omelette", name := "Omelette",
      instructions := "", prepTime := "", cookTime := "", source := "",
      ingredients :=
        [ ⟨"Eggs", 3, ""⟩,
          ⟨"Butter", 10, "g"⟩,
          ⟨"Cheddar Cheese", 30, "g"⟩,
          ⟨"Mushrooms", 50, "g"⟩,
          ⟨"Cherry Tomatoes", 4, ""⟩ ] } ]

/-- `findMeal(mealId)` from app.js: first meal in the catalog with the
given id, or `none` (the JS loop returns the first match / `undefined`). -/
def findMeal (meals : List Meal) (mealId : String) : Option Meal :=
  meals.find? fun m => m.id = mealId

/-! ## Plans as JS objects -/

/-- A plan object: a JS object mapping slot-key strings to meal ids
(`some s`) or `null` (`none`), kept in property insertion order. -/
def PlanObj := List (String × Option String)
  deriving Repr, DecidableEq

/-- JS property read `obj[k]`: outer `none` means the property is absent
(`undefined`); `some v` means the property is present with value `v`. -/
def objGet (plan : PlanObj) (k : String) : Option (Option String) :=
  (List.find? (fun e => e.1 = k) plan).map (fun e => e.2)

/-- JS property write `obj[k] = v`: overwrites in place if the key exists
(keeping its position), otherwise appends the key (insertion order). -/
def objSet (plan : PlanObj) (k : String) (v : Option String) : PlanObj :=
  match plan with
  | [] => [(k, v)]
  | e :: rest => if e.1 = k then (k, v) :: rest else e :: objSet rest k v

/-- `createEmptyPlan()` from app.js: all 42 slots set to `null`, built by
the triple loop over days × meals × people. -/
def createEmptyPlan : PlanObj :=
  slotKeys.foldl (fun plan k => objSet plan k none) []

/-- Body of `assignMeal(key, mealId)`'s plan update:
`currentPlan[key] = mealId`. -/
def assignMealPlan (plan : PlanObj) (key mealId : String) : PlanObj :=
  objSet plan key (some mealId)

/-- Body of `removeMeal(key)`'s plan update: `currentPlan[key] = null`. -/
def removeMealPlan (plan : PlanObj) (key : String) : PlanObj :=
  objSet plan key none

/-- Body of `clearWeek()`'s plan update: sets every one of the 42 canonical
slot keys to `null` (plan part only; the confirm gate and rendering are
presentation-layer). -/
def clearWeekPlan (plan : PlanObj) : PlanObj :=
  slotKeys.foldl (fun p k => objSet p k none) plan

/-! ## Shopping-list aggregation -/

/-- JS truthiness of a slot read `var mealId = plan[key]; if (!mealId) ...`:
absent (`undefined`), `null` and the empty string are all falsy. -/
def truthyId (v : Option (Option String)) : Option String :=
  match v with
  | some (some s) => if s = "" then none else some s
  | _ => none

/-- One consolidated shopping-list line item. -/
structure Item where
  name : String
  quantity : ℚ
  unit : String
  deriving Repr, DecidableEq

/-- JS `String.prototype.toLowerCase`, modelled character-wise (`Char.toLower`
lowers A–Z; JS also lowers non-ASCII letters, which none of the program's
strings contain). -/
def jsToLower (s : String) : String := ⟨s.data.map Char.toLower⟩

/-- The merge key from app.js:
`var mapKey = ing.name.toLowerCase() + '|' + ing.unit;`. -/
def mkMapKey (ing : Ingredient) : String :=
  jsToLower ing.name ++ "|" ++ ing.unit

/-- The consolidated map: a JS object keyed by merge key, in insertion
order. -/
def ConsMap := List (String × Item)
  deriving Repr, DecidableEq

/-- Adding one ingredient occurrence to the consolidated object: if the
merge key is present, add to its quantity; else insert a new entry keeping
the occurrence's original-case name and unit. -/
def consAdd (cons : ConsMap) (ing : Ingredient) : ConsMap :=
  match cons with
  | [] => [(mkMapKey ing, ⟨ing.name, ing.quantity, ing.unit⟩)]
  | (k, it) :: rest =>
      if k = mkMapKey ing then
        (k, ⟨it.name, it.quantity + ing.quantity, it.unit⟩) :: rest
      else
        (k, it) :: consAdd rest ing

/-- Processing one slot inside `generateShoppingList`: read the slot, skip
falsy values, resolve through the catalog, skip unresolved ids, and fold
the meal's ingredients into the consolidated object. -/
def processSlot (meals : List Meal) (plan : PlanObj) (cons : ConsMap)
    (key : String) : ConsMap :=
  match truthyId (objGet plan key) with
  | none => cons
  | some mealId =>
      match findMeal meals mealId with
      | none => cons
      | some meal => meal.ingredients.foldl consAdd cons

/-- The consolidation loop of `generateShoppingList`, generalised over the
slot visitation order (the source visits `slotKeys` in canonical order). -/
def consolidateOrder (keys : List String) (meals : List Meal)
    (plan : PlanObj) : ConsMap :=
  keys.foldl (processSlot meals plan) []

/-- Stable insertion of an item into a name-sorted list: the new item goes
after every earlier item whose name compares ≤ (JS stable sort keeps the
original relative order of entries that compare equal). -/
def sortInsertItem (a : Item) : List Item → List Item
  | [] => [a]
  | b :: rest =>
      if compare a.name b.name = Ordering.gt then b :: sortInsertItem a rest
      else a :: b :: rest

/-- Stable sort by name, modelling
`list.sort((a, b) => a.name.localeCompare(b.name))`. -/
def sortItems : List Item → List Item
  | [] => []
  | a :: rest => sortInsertItem a (sortItems rest)

/-- `generateShoppingList(plan)` from app.js: consolidate all 42 slots in
canonical order, then list the entries in insertion order and sort them by
name. -/
def generateShoppingList (meals : List Meal) (plan : PlanObj) : List Item :=
  sortItems ((consolidateOrder slotKeys meals plan).map (fun e => e.2))

/-- `generateShoppingList` with the slot visitation order made explicit
(the source's canonical order is `slotKeys`). -/
def generateShoppingListOrder (keys : List String) (meals : List Meal)
    (plan : PlanObj) : List Item :=
  sortItems ((consolidateOrder keys meals plan).map (fun e => e.2))

/-- The ingredient occurrences one slot contributes: the resolved recipe's
ingredient list, or `[]` for an empty / falsy / unresolved slot. -/
def slotIngredients (meals : List Meal) (plan : PlanObj) (key : String) :
    List Ingredient :=
  match truthyId (objGet plan key) with
  | none => []
  | some mealId =>
      match findMeal meals mealId with
      | none => []
      | some meal => meal.ingredients

/-- Measurement used in the aggregation theorems: the total quantity the
consolidated object holds under merge key `k` (the sum over its entries
with that key; entries are in fact unique per key). -/
def qtyAt : ConsMap → String → ℚ
  | [], _ => 0
  | (k0, it) :: rest, k => (if k0 = k then it.quantity else 0) + qtyAt rest k

/-- Measurement used in the aggregation theorems: the quantity one slot of
the plan contributes to merge key `k` — the sum of the matching ingredient
quantities of the resolved recipe, counted once for this slot, or `0` for
an empty / unresolved slot. -/
def slotContribution (meals : List Meal) (plan : PlanObj) (k key : String) : ℚ :=
  match truthyId (objGet plan key) with
  | none => 0
  | some mealId =>
      match findMeal meals mealId with
      | none => 0
      | some meal =>
          (meal.ingredients.map
            (fun ing => if mkMapKey ing = k then ing.quantity else 0)).sum

/-! ## Week rotation and week identifiers

Dates are civil days since 1970-01-01 (`ℤ`).  `getDay` is JS
`Date.prototype.getDay` (Sunday = 0): 1970-01-01 was a Thursday (4). -/

/-- JS `date.getDay()` on the civil-day model. -/
def getDay (d : ℤ) : ℤ := (d + 4) % 7

/-- The `dayMap` lookup inside `getWeekStartDate` (Sun=0 … Sat=6);
`none` models the `undefined` produced by an invalid start-day key. -/
def dayMap (s : String) : Option ℤ :=
  if s = "sun" then some 0
  else if s = "mon" then some 1
  else if s = "tue" then some 2
  else if s = "wed" then some 3
  else if s = "thu" then some 4
  else if s = "fri" then some 5
  else if s = "sat" then some 6
  else none

/-- `getWeekStartDate(date)` from app.js, with the module-level `startDay`
made an explicit argument: go back `(currentDay - targetDay) mod 7` days.
`none` models the Invalid Date a non-day `startDay` string would produce. -/
def getWeekStartDate (startDay : String) (ref : ℤ) : Option ℤ :=
  (dayMap startDay).map fun targetDay =>
    let currentDay := getDay ref
    let diff := currentDay - targetDay
    let diff := if diff < 0 then diff + 7 else diff
    ref - diff

/-- Civil-from-days calendar conversion (proleptic Gregorian), the model of
JS `getFullYear()` / `getMonth() + 1` / `getDate()` on a civil day count.
The source C-style algorithm uses truncating division on a pre-shifted
non-negative numerator; with Lean's floor-style `ℤ` division the explicit
shift for negative inputs is unnecessary. Returns (year, month 1–12, day). -/
def civilFromDays (z0 : ℤ) : ℤ × ℤ × ℤ :=
  let z := z0 + 719468
  let era := z / 146097
  let doe := z - era * 146097
  let yoe := (doe - doe / 1460 + doe / 36524 - doe / 146096) / 365
  let y := yoe + era * 400
  let doy := doe - (365 * yoe + yoe / 4 - yoe / 100)
  let mp := (5 * doy + 2) / 153
  let d := doy - (153 * mp + 2) / 5 + 1
  let m := mp + (if mp < 10 then 3 else -9)
  (y + (if m ≤ 2 then 1 else 0), m, d)

/-- JS `String(n).padStart(2, '0')` for the decimal rendering of `n`. -/
def padStart2 (s : String) : String :=
  if s.length ≥ 2 then s
  else if s.length = 1 then "0" ++ s
  else "00" ++ s

/-- The `y + '-' + m + '-' + d` formatting of `getCustomWeekId`, applied to
a civil day count: year unpadded (as JS `String(y)`), month and day padded
to two digits. -/
def formatDaysYMD (days : ℤ) : String :=
  let c := civilFromDays days
  toString c.1 ++ "-" ++ padStart2 (toString c.2.1) ++ "-" ++
    padStart2 (toString c.2.2)

/-- `getCustomWeekId(date)` from app.js with `startDay` explicit: the
`YYYY-MM-DD` rendering of the week-start date. -/
def getCustomWeekId (startDay : String) (ref : ℤ) : Option String :=
  (getWeekStartDate startDay ref).map formatDaysYMD

/-! ## Persistence model

`localStorage` records relevant to the claims, as typed values: a record is
`none` when the stored string is absent or fails to parse into the expected
shape (every reader is wrapped in try/catch in the source). -/

/-- A saved history entry (`savePlan`'s `entry` object). -/
structure HistEntry where
  weekId : String
  weekLabel : String
  savedAt : String
  plan : PlanObj
  deriving Repr, DecidableEq

/-- The history-update step inside `savePlan`: find the first entry with
the same `weekId` and overwrite it in place, else `unshift`; then cap the
list at 12 entries. -/
def savePlanHistory (history : List HistEntry) (entry : HistEntry) :
    List HistEntry :=
  let h :=
    match history.findIdx? (fun e => e.weekId = entry.weekId) with
    | some i => history.set i entry
    | none => entry :: history
  if h.length > 12 then h.take 12 else h

/-- The persisted records the plan lifecycle touches. -/
structure Store where
  draft : Option PlanObj
  current : Option HistEntry
  history : List HistEntry
  deriving Repr, DecidableEq

/-- The mutable session state of app.js (`currentPlan`,
`hasUnsavedChanges`) together with the persisted records. -/
structure AppState where
  currentPlan : PlanObj
  hasUnsavedChanges : Bool
  store : Store
  deriving Repr, DecidableEq

/-- `JSON.parse(JSON.stringify(plan))` on a plan object: a structural deep
copy, value-preserving on string/null-valued objects. -/
def deepCopyPlan (plan : PlanObj) : PlanObj :=
  plan.map fun e => (e.1, e.2)

/-- `saveDraft()` from app.js: write the current plan to the draft record;
`ok = false` injects a storage failure (`setItem` throws, the record is
unchanged, and the catch block swallows the exception).  Returns the new
state and whether any user-visible error was raised (never). -/
def saveDraftRun (st : AppState) (ok : Bool) : AppState × Bool :=
  if ok then
    ({ st with store := { st.store with draft := some st.currentPlan } }, false)
  else
    (st, false)

/-- `assignMeal(key, mealId)` from app.js as a state transition (slot
update, dirty flag, draft auto-persist — rendering omitted). -/
def assignMealState (st : AppState) (key mealId : String) (draftOk : Bool) :
    AppState :=
  (saveDraftRun
    { st with currentPlan := assignMealPlan st.currentPlan key mealId,
              hasUnsavedChanges := true } draftOk).1

/-- `removeMeal(key)` from app.js as a state transition. -/
def removeMealState (st : AppState) (key : String) (draftOk : Bool) :
    AppState :=
  (saveDraftRun
    { st with currentPlan := removeMealPlan st.currentPlan key,
              hasUnsavedChanges := true } draftOk).1

/-- `clearWeek()` from app.js as a state transition (after the user
confirms). -/
def clearWeekState (st : AppState) (draftOk : Bool) : AppState :=
  (saveDraftRun
    { st with currentPlan := clearWeekPlan st.currentPlan,
              hasUnsavedChanges := true } draftOk).1

/-- Which storage write inside `savePlan`'s try block throws, if any.
`localStorage.setItem` is atomic: a throwing write leaves its record
unchanged. -/
inductive SaveOutcome where
  | success
  | failCurrentWrite
  | failHistoryWrite
  deriving Repr, DecidableEq

/-- `savePlan()` from app.js as a state transition, with the computed
`weekId` / `weekLabel` / `savedAt` values passed in and a fault-injection
argument for the two `setItem` calls.  Returns the new state and whether
the catch block raised the user-visible save error.  The try block runs in
source order: write `mealPlannerCurrent`, upsert + cap the history, write
`mealPlannerHistory`, remove the draft, clear the dirty flag; any throw
jumps to the catch, skipping the remaining steps. -/
def savePlanRun (st : AppState) (weekId weekLabel savedAt : String)
    (outcome : SaveOutcome) : AppState × Bool :=
  let entry : HistEntry :=
    ⟨weekId, weekLabel, savedAt, deepCopyPlan st.currentPlan⟩
  match outcome with
  | .failCurrentWrite => (st, true)
  | .failHistoryWrite =>
      ({ st with store := { st.store with current := some entry } }, true)
  | .success =>
      ({ st with
          hasUnsavedChanges := false,
          store :=
            { draft := none,
              current := some entry,
              history := savePlanHistory st.store.history entry } }, false)

/-- `loadOnStartup()` from app.js, with today's computed week id passed in
(the source computes `getCustomWeekId(new Date())`).  Returns the plan and
the resulting `hasUnsavedChanges` flag (initially `false`; only the draft
branch sets it).  Draft precedence: a present, non-empty draft always wins;
else a current-week snapshot whose `weekId` matches today; else a fresh
empty plan. -/
def loadOnStartup (store : Store) (todayWeekId : String) :
    PlanObj × Bool :=
  match store.draft with
  | some draft =>
      if draft.length > 0 then (draft, true)
      else
        match store.current with
        | some data =>
            if data.weekId = todayWeekId then (data.plan, false)
            else (createEmptyPlan, false)
        | none => (createEmptyPlan, false)
  | none =>
      match store.current with
      | some data =>
          if data.weekId = todayWeekId then (data.plan, false)
          else (createEmptyPlan, false)
      | none => (createEmptyPlan, false)

/-! ## Concrete fixtures used by the scenario theorems -/

/-- The plan of the omelette scenario: Steve, Zoe and Dylan all assigned
"omelette" for Friday lunch, built by three `assignMeal` updates on a fresh
empty plan. -/
def omelettePlan : PlanObj :=
  assignMealPlan
    (assignMealPlan
      (assignMealPlan createEmptyPlan "fri-lunch-steve" "omelette")
      "fri-lunch-zoe" "omelette")
    "fri-lunch-dylan" "omelette"

/-- A catalog whose ingredient names contain `'|'`, the character the merge
key uses as separator: the two ingredients differ in name and in unit yet
share the merge key `"a|x|y"`. -/
def barNameCatalog : List Meal :=
  [ { id := "m1", name := "M1", instructions := "", prepTime := "",
      cookTime := "", source := "",
      ingredients := [⟨"a|x", 1, "y"⟩, ⟨"a", 2, "x|y"⟩] } ]

/-- A plan assigning the `barNameCatalog` meal to a single slot. -/
def barNamePlan : PlanObj := [("mon-lunch-steve", some "m1")]

/-- A catalog with two meals whose single ingredients share the display
name "Butter" but differ in unit, so they form two distinct line items
whose names compare equal in the final sort. -/
def butterCatalog : List Meal :=
  [ { id := "m1", name := "M1", instructions := "", prepTime := "",
      cookTime := "", source := "", ingredients := [⟨"Butter", 1, "g"⟩] },
    { id := "m2", name := "M2", instructions := "", prepTime := "",
      cookTime := "", source := "", ingredients := [⟨"Butter", 1, ""⟩] } ]

/-- A plan assigning the two `butterCatalog` meals to the first two
canonical slots. -/
def butterPlan : PlanObj :=
  [("mon-lunch-steve", some "m1"), ("mon-lunch-zoe", some "m2")]

/-- The canonical slot order with its first two slots exchanged. -/
def slotKeysSwapped : List String :=
  "mon-lunch-zoe" :: "mon-lunch-steve" :: slotKeys.drop 2

/-- A history entry with a given week id and an empty payload. -/
def mkEntry (wid : String) : HistEntry := ⟨wid, "", "", []⟩

/-- A 13-entry stored history list (longer than the documented 12-entry
cap, as a corrupted or externally written store could contain). -/
def hist13 : List HistEntry :=
  [mkEntry "2026-01-02", mkEntry "2026-01-09", mkEntry "2026-01-16",
   mkEntry "2026-01-23", mkEntry "2026-01-30", mkEntry "2026-02-06",
   mkEntry "2026-02-13", mkEntry "2026-02-20", mkEntry "2026-02-27",
   mkEntry "2026-03-06", mkEntry "2026-03-13", mkEntry "2026-03-20",
   mkEntry "2026-03-27"]

/-! ## Helper lemmas -/

attribute [local semireducible] Rat.add Rat.ofScientific

set_option maxRecDepth 8000

theorem qtyAt_nil (k : String) : qtyAt [] k = 0 := rfl

theorem qtyAt_consAdd : ∀ (cons : ConsMap) (ing : Ingredient) (k : String),
    qtyAt (consAdd cons ing) k
      = qtyAt cons k + (if mkMapKey ing = k then ing.quantity else 0)
  | [], ing, k => by
      by_cases h : mkMapKey ing = k <;> simp [qtyAt, consAdd, h]
  | (k0, it) :: rest, ing, k => by
      simp only [consAdd]
      by_cases h1 : k0 = mkMapKey ing
      · subst h1
        rw [if_pos rfl]
        by_cases h : mkMapKey ing = k
        · simp only [qtyAt, if_pos h]
          ring
        · simp [qtyAt, h]
      · rw [if_neg h1]
        simp only [qtyAt, qtyAt_consAdd rest ing k]
        ring

theorem qtyAt_foldl_consAdd :
    ∀ (ings : List Ingredient) (cons : ConsMap) (k : String),
    qtyAt (ings.foldl consAdd cons) k
      = qtyAt cons k
        + (ings.map
            (fun ing => if mkMapKey ing = k then ing.quantity else 0)).sum
  | [], cons, k => by simp
  | ing :: rest, cons, k => by
      simp only [List.foldl_cons, List.map_cons, List.sum_cons,
        qtyAt_foldl_consAdd rest, qtyAt_consAdd]
      ring

theorem processSlot_eq (meals : List Meal) (plan : PlanObj) (cons : ConsMap)
    (key : String) :
    processSlot meals plan cons key
      = (slotIngredients meals plan key).foldl consAdd cons := by
  cases h : truthyId (objGet plan key) with
  | none => simp [processSlot, slotIngredients, h]
  | some mid =>
      cases h2 : findMeal meals mid with
      | none => simp [processSlot, slotIngredients, h, h2]
      | some meal => simp [processSlot, slotIngredients, h, h2]

theorem slotContribution_eq (meals : List Meal) (plan : PlanObj)
    (k key : String) :
    slotContribution meals plan k key
      = ((slotIngredients meals plan key).map
          (fun ing => if mkMapKey ing = k then ing.quantity else 0)).sum := by
  cases h : truthyId (objGet plan key) with
  | none => simp [slotContribution, slotIngredients, h]
  | some mid =>
      cases h2 : findMeal meals mid with
      | none => simp [slotContribution, slotIngredients, h, h2]
      | some meal => simp [slotContribution, slotIngredients, h, h2]

theorem qtyAt_processSlot (meals : List Meal) (plan : PlanObj)
    (cons : ConsMap) (key k : String) :
    qtyAt (processSlot meals plan cons key) k
      = qtyAt cons k + slotContribution meals plan k key := by
  rw [processSlot_eq, qtyAt_foldl_consAdd, slotContribution_eq]

theorem qtyAt_foldl_processSlot (meals : List Meal) (plan : PlanObj)
    (k : String) :
    ∀ (keys : List String) (cons : ConsMap),
    qtyAt (keys.foldl (processSlot meals plan) cons) k
      = qtyAt cons k + (keys.map (slotContribution meals plan k)).sum
  | [], cons => by simp
  | key :: rest, cons => by
      simp only [List.foldl_cons, List.map_cons, List.sum_cons,
        qtyAt_foldl_processSlot meals plan k rest, qtyAt_processSlot]
      ring

theorem qtyAt_consolidateOrder (keys : List String) (meals : List Meal)
    (plan : PlanObj) (k : String) :
    qtyAt (consolidateOrder keys meals plan) k
      = (keys.map (slotContribution meals plan k)).sum := by
  unfold consolidateOrder
  rw [qtyAt_foldl_processSlot, qtyAt_nil, zero_add]

theorem keys_consAdd : ∀ (cons : ConsMap) (ing : Ingredient),
    (consAdd cons ing).map Prod.fst
      = if mkMapKey ing ∈ cons.map Prod.fst then cons.map Prod.fst
        else cons.map Prod.fst ++ [mkMapKey ing]
  | [], ing => by simp [consAdd]
  | (k0, it) :: rest, ing => by
      simp only [consAdd]
      by_cases h1 : k0 = mkMapKey ing
      · subst h1
        simp
      · simp only [if_neg h1, List.map_cons, keys_consAdd rest ing,
          List.mem_cons]
        have : ¬ mkMapKey ing = k0 := fun h => h1 h.symm
        by_cases h2 : mkMapKey ing ∈ rest.map Prod.fst <;>
          simp [h2, this]

theorem mem_keys_consAdd (cons : ConsMap) (ing : Ingredient) (k : String) :
    k ∈ (consAdd cons ing).map Prod.fst
      ↔ k ∈ cons.map Prod.fst ∨ k = mkMapKey ing := by
  rw [keys_consAdd]
  by_cases h : mkMapKey ing ∈ cons.map Prod.fst
  · rw [if_pos h]
    constructor
    · exact fun hk => Or.inl hk
    · rintro (hk | rfl)
      · exact hk
      · exact h
  · rw [if_neg h]
    simp

theorem nodup_keys_consAdd (cons : ConsMap) (ing : Ingredient)
    (h : (cons.map Prod.fst).Nodup) :
    ((consAdd cons ing).map Prod.fst).Nodup := by
  rw [keys_consAdd]
  by_cases hm : mkMapKey ing ∈ cons.map Prod.fst
  · rwa [if_pos hm]
  · rw [if_neg hm]
    simp [List.nodup_append, h, hm]

theorem mem_keys_foldl_consAdd :
    ∀ (ings : List Ingredient) (cons : ConsMap) (k : String),
    k ∈ ((ings.foldl consAdd cons).map Prod.fst)
      ↔ k ∈ cons.map Prod.fst ∨ ∃ ing ∈ ings, mkMapKey ing = k
  | [], cons, k => by simp
  | ing :: rest, cons, k => by
      simp only [List.foldl_cons, mem_keys_foldl_consAdd rest,
        mem_keys_consAdd, List.mem_cons]
      constructor
      · rintro ((h | h) | ⟨i, hi, rfl⟩)
        · exact Or.inl h
        · exact Or.inr ⟨ing, Or.inl rfl, h.symm⟩
        · exact Or.inr ⟨i, Or.inr hi, rfl⟩
      · rintro (h | ⟨i, (rfl | hi), rfl⟩)
        · exact Or.inl (Or.inl h)
        · exact Or.inl (Or.inr rfl)
        · exact Or.inr ⟨i, hi, rfl⟩

theorem nodup_keys_foldl_consAdd :
    ∀ (ings : List Ingredient) (cons : ConsMap),
    (cons.map Prod.fst).Nodup → ((ings.foldl consAdd cons).map Prod.fst).Nodup
  | [], _, h => h
  | ing :: rest, cons, h =>
      nodup_keys_foldl_consAdd rest (consAdd cons ing)
        (nodup_keys_consAdd cons ing h)

theorem mem_keys_foldl_processSlot (meals : List Meal) (plan : PlanObj)
    (k : String) :
    ∀ (keys : List String) (cons : ConsMap),
    k ∈ ((keys.foldl (processSlot meals plan) cons).map Prod.fst)
      ↔ k ∈ cons.map Prod.fst
        ∨ ∃ key ∈ keys, ∃ ing ∈ slotIngredients meals plan key, mkMapKey ing = k
  | [], cons => by simp
  | key :: rest, cons => by
      simp only [List.foldl_cons,
        mem_keys_foldl_processSlot meals plan k rest, processSlot_eq,
        mem_keys_foldl_consAdd, List.mem_cons]
      constructor
      · rintro ((h | ⟨i, hi, rfl⟩) | ⟨ky, hky, hing⟩)
        · exact Or.inl h
        · exact Or.inr ⟨key, Or.inl rfl, i, hi, rfl⟩
        · exact Or.inr ⟨ky, Or.inr hky, hing⟩
      · rintro (h | ⟨ky, (rfl | hky), hing⟩)
        · exact Or.inl (Or.inl h)
        · exact Or.inl (Or.inr hing)
        · exact Or.inr ⟨ky, hky, hing⟩

theorem nodup_keys_foldl_processSlot (meals : List Meal) (plan : PlanObj) :
    ∀ (keys : List String) (cons : ConsMap),
    (cons.map Prod.fst).Nodup
      → ((keys.foldl (processSlot meals plan) cons).map Prod.fst).Nodup
  | [], _, h => h
  | key :: rest, cons, h =>
      nodup_keys_foldl_processSlot meals plan rest _
        (by rw [processSlot_eq]; exact nodup_keys_foldl_consAdd _ _ h)

theorem mem_keys_consolidateOrder (keys : List String) (meals : List Meal)
    (plan : PlanObj) (k : String) :
    k ∈ (consolidateOrder keys meals plan).map Prod.fst
      ↔ ∃ key ∈ keys, ∃ ing ∈ slotIngredients meals plan key, mkMapKey ing = k := by
  unfold consolidateOrder
  rw [mem_keys_foldl_processSlot]
  simp

theorem nodup_keys_consolidateOrder (keys : List String) (meals : List Meal)
    (plan : PlanObj) :
    ((consolidateOrder keys meals plan).map Prod.fst).Nodup :=
  nodup_keys_foldl_processSlot meals plan keys [] (by simp)

theorem objGet_objSet : ∀ (plan : PlanObj) (k : String) (v : Option String)
    (k' : String),
    objGet (objSet plan k v) k'
      = if k' = k then some v else objGet plan k'
  | [], k, v, k' => by
      by_cases h : k' = k
      · subst h
        simp [objGet, objSet, List.find?]
      · have h2 : ¬ k = k' := fun hh => h hh.symm
        simp [objGet, objSet, List.find?, h, h2]
  | (k0, v0) :: rest, k, v, k' => by
      simp only [objSet]
      by_cases h0 : k0 = k
      · subst h0
        rw [if_pos rfl]
        by_cases h : k' = k0
        · subst h
          simp [objGet, List.find?_cons]
        · have h2 : ¬ k0 = k' := fun hh => h hh.symm
          simp [objGet, List.find?_cons, h, h2]
      · rw [if_neg h0]
        by_cases h : k' = k0
        · subst h
          simp [objGet, List.find?_cons, h0]
        · have h2 : ¬ k0 = k' := fun hh => h hh.symm
          have lhs : objGet ((k0, v0) :: objSet rest k v) k'
              = objGet (objSet rest k v) k' := by
            simp [objGet, List.find?_cons, h2]
          have rhs : objGet ((k0, v0) :: rest) k' = objGet rest k' := by
            simp [objGet, List.find?_cons, h2]
          rw [lhs, rhs]
          exact objGet_objSet rest k v k'

theorem keys_objSet_of_mem : ∀ (plan : PlanObj) (k : String)
    (v : Option String), k ∈ plan.map Prod.fst
      → (objSet plan k v).map Prod.fst = plan.map Prod.fst
  | [], k, v, h => by simp at h
  | (k0, v0) :: rest, k, v, h => by
      simp only [objSet]
      by_cases h0 : k0 = k
      · subst h0
        simp
      · simp only [List.map_cons, Prod.fst] at h
        rcases List.mem_cons.mp h with h1 | h1
        · exact absurd h1.symm h0
        · simp [if_neg h0, keys_objSet_of_mem rest k v h1]

theorem keys_foldl_objSet_none : ∀ (keys : List String) (plan : PlanObj),
    (∀ k ∈ keys, k ∈ plan.map Prod.fst)
      → ((keys.foldl (fun p k => objSet p k none) plan).map Prod.fst)
          = plan.map Prod.fst
  | [], plan, _ => rfl
  | key :: rest, plan, h => by
      simp only [List.foldl_cons]
      have hkey : key ∈ plan.map Prod.fst := h key (by simp)
      have hstep := keys_objSet_of_mem plan key none hkey
      rw [keys_foldl_objSet_none rest (objSet plan key none)
        (fun k hk => by rw [hstep]; exact h k (by simp [hk])), hstep]

theorem processSlot_congr (meals : List Meal) (p1 p2 : PlanObj)
    (cons : ConsMap) (key : String)
    (h : truthyId (objGet p1 key) = truthyId (objGet p2 key)) :
    processSlot meals p1 cons key = processSlot meals p2 cons key := by
  unfold processSlot
  rw [h]

theorem consolidate_congr (meals : List Meal) (p1 p2 : PlanObj) :
    ∀ (keys : List String) (cons : ConsMap),
    (∀ k ∈ keys, truthyId (objGet p1 k) = truthyId (objGet p2 k))
      → keys.foldl (processSlot meals p1) cons
          = keys.foldl (processSlot meals p2) cons
  | [], cons, _ => rfl
  | key :: rest, cons, h => by
      simp only [List.foldl_cons]
      rw [processSlot_congr meals p1 p2 cons key (h key (by simp))]
      exact consolidate_congr meals p1 p2 rest _ (fun k hk => h k (by simp [hk]))

theorem generateShoppingList_congr (meals : List Meal) (p1 p2 : PlanObj)
    (h : ∀ k ∈ slotKeys, truthyId (objGet p1 k) = truthyId (objGet p2 k)) :
    generateShoppingList meals p1 = generateShoppingList meals p2 := by
  unfold generateShoppingList consolidateOrder
  rw [consolidate_congr meals p1 p2 slotKeys [] h]

theorem findIdx?_lt_length_aux {α : Type} (p : α → Bool) :
    ∀ (l : List α) (n i : ℕ), List.findIdx? p l n = some i → i < n + l.length
  | [], n, i, h => by simp [List.findIdx?] at h
  | a :: rest, n, i, h => by
      rw [List.findIdx?_cons] at h
      by_cases hp : p a
      · simp only [hp, if_pos, if_true, Option.some.injEq] at h
        simp only [List.length_cons]
        omega
      · simp only [hp, Bool.false_eq_true, if_false, ite_false] at h
        have := findIdx?_lt_length_aux p rest (n + 1) i h
        simp only [List.length_cons]
        omega

theorem findIdx?_lt_length {α : Type} (p : α → Bool) {l : List α} {i : ℕ}
    (h : l.findIdx? p = some i) : i < l.length := by
  have := findIdx?_lt_length_aux p l 0 i h
  omega

theorem savePlanHistory_eq_found (hist : List HistEntry) (e : HistEntry)
    (i : ℕ) (h : hist.findIdx? (fun x => x.weekId = e.weekId) = some i) :
    savePlanHistory hist e
      = if (hist.set i e).length > 12 then (hist.set i e).take 12
        else hist.set i e := by
  unfold savePlanHistory
  rw [h]

theorem savePlanHistory_eq_fresh (hist : List HistEntry) (e : HistEntry)
    (h : hist.findIdx? (fun x => x.weekId = e.weekId) = none) :
    savePlanHistory hist e
      = if (e :: hist).length > 12 then (e :: hist).take 12
        else e :: hist := by
  unfold savePlanHistory
  rw [h]

theorem mem_set_self {α : Type} :
    ∀ (l : List α) (i : ℕ) (a : α), i < l.length → a ∈ l.set i a
  | [], i, a, h => by simp at h
  | b :: rest, 0, a, _ => by simp
  | b :: rest, i + 1, a, h => by
      simp only [List.set_cons_succ, List.mem_cons]
      exact Or.inr (mem_set_self rest i a (by simp at h; omega))

theorem deepCopyPlan_eq (plan : PlanObj) : deepCopyPlan plan = plan := by
  unfold deepCopyPlan
  induction plan with
  | nil => rfl
  | cons e rest ih => simp [ih]

theorem mem_savePlanHistory (hist : List HistEntry) (e : HistEntry)
    (hlen : hist.length ≤ 12) : e ∈ savePlanHistory hist e := by
  cases hfind : hist.findIdx? (fun x => x.weekId = e.weekId) with
  | some i =>
      have hi : i < hist.length := findIdx?_lt_length _ hfind
      have hl : (hist.set i e).length = hist.length := List.length_set ..
      rw [savePlanHistory_eq_found hist e i hfind, if_neg (by omega)]
      exact mem_set_self hist i e hi
  | none =>
      rw [savePlanHistory_eq_fresh hist e hfind]
      by_cases hc : (e :: hist).length > 12
      · rw [if_pos hc]
        have : (e :: hist).take 12 = e :: hist.take 11 := by simp
        rw [this]
        simp
      · rw [if_neg hc]
        simp

theorem dayMap_bounds (sd : String) (t : ℤ) (h : dayMap sd = some t) :
    0 ≤ t ∧ t < 7 := by
  unfold dayMap at h
  split_ifs at h <;> simp_all <;> omega

theorem getWeekStartDate_eq (sd : String) (t ref : ℤ)
    (h : dayMap sd = some t) :
    getWeekStartDate sd ref
      = some (ref - (if getDay ref - t < 0 then getDay ref - t + 7
                     else getDay ref - t)) := by
  unfold getWeekStartDate
  rw [h]
  rfl

theorem append_bar_inj : ∀ (l1 l2 r1 r2 : List Char), '|' ∉ l1 → '|' ∉ l2 →
    l1 ++ '|' :: r1 = l2 ++ '|' :: r2 → l1 = l2 ∧ r1 = r2
  | [], [], r1, r2, _, _, h => by
      simp only [List.nil_append, List.cons.injEq] at h
      exact ⟨rfl, h.2⟩
  | [], c :: l2, r1, r2, _, h2, h => by
      simp only [List.nil_append, List.cons_append, List.cons.injEq] at h
      exact absurd (by rw [h.1]; exact List.mem_cons_self c l2) h2
  | c :: l1, [], r1, r2, h1, _, h => by
      simp only [List.nil_append, List.cons_append, List.cons.injEq] at h
      exact absurd (by rw [← h.1]; exact List.mem_cons_self c l1) h1
  | c :: l1, d :: l2, r1, r2, h1, h2, h => by
      simp only [List.cons_append, List.cons.injEq] at h
      obtain ⟨hcd, hrest⟩ := h
      have ih := append_bar_inj l1 l2 r1 r2
        (fun hm => h1 (List.mem_cons_of_mem _ hm))
        (fun hm => h2 (List.mem_cons_of_mem _ hm)) hrest
      exact ⟨by rw [hcd, ih.1], ih.2⟩

theorem mkMapKey_eq_iff (i1 i2 : Ingredient)
    (h1 : '|' ∉ (jsToLower i1.name).data)
    (h2 : '|' ∉ (jsToLower i2.name).data) :
    mkMapKey i1 = mkMapKey i2
      ↔ (jsToLower i1.name = jsToLower i2.name ∧ i1.unit = i2.unit) := by
  unfold mkMapKey
  constructor
  · intro h
    have hdata : (jsToLower i1.name).data ++ '|' :: i1.unit.data
        = (jsToLower i2.name).data ++ '|' :: i2.unit.data := by
      have := congrArg String.data h
      simpa [List.append_assoc] using this
    obtain ⟨hn, hu⟩ := append_bar_inj _ _ _ _ h1 h2 hdata
    exact ⟨String.ext hn, String.ext hu⟩
  · rintro ⟨hn, hu⟩
    rw [hn, hu]

/-! ## Claim theorems -/

/-- C1: Aggregation sums per-person quantities once per contributing
person-slot and never multiplies by a person count: for every catalog,
plan and merge key, the consolidated total equals the sum over the 42
slots of the resolved recipe's matching per-person ingredient quantities,
counted exactly once per slot.  Concretely, for the plan in which Steve,
Zoe and Dylan all have "omelette" assigned for Friday lunch (all other
slots empty) and the built-in default catalog, the aggregate yields
Eggs = 9, Butter = 30 g, Cheddar Cheese = 90 g, Mushrooms = 150 g and
Cherry Tomatoes = 12 — each exactly 3 times the per-person recipe value. -/
theorem c1_per_slot_sums :
    (∀ (meals : List Meal) (plan : PlanObj) (k : String),
      qtyAt (consolidateOrder slotKeys meals plan) k
        = (slotKeys.map (slotContribution meals plan k)).sum)
    ∧ generateShoppingList DEFAULT_MEALS omelettePlan
        = [⟨"Butter", 30, "g"⟩, ⟨"Cheddar Cheese", 90, "g"⟩,
           ⟨"Cherry Tomatoes", 12, ""⟩, ⟨"Eggs", 9, ""⟩,
           ⟨"Mushrooms", 150, "g"⟩] :=
  ⟨fun meals plan k => qtyAt_consolidateOrder slotKeys meals plan k, by decide⟩

/-- C2: For every reference date and valid start-day key, the stored week
identifier is the `YYYY-MM-DD` rendering of the week-start date, where the
week-start date is the most recent occurrence of the start day on or
before the reference date (the reference date itself when it falls on the
start day).  Consequently, with start day Friday, a Wednesday reference
date yields the same weekId as the preceding Friday's date. -/
theorem c2_week_id :
    (∀ (ref : ℤ) (sd : String) (t : ℤ), dayMap sd = some t →
      ∃ ws : ℤ, getWeekStartDate sd ref = some ws
        ∧ getDay ws = t
        ∧ ws ≤ ref
        ∧ (∀ d : ℤ, getDay d = t → d ≤ ref → d ≤ ws)
        ∧ (getDay ref = t → ws = ref)
        ∧ getCustomWeekId sd ref = some (formatDaysYMD ws))
    ∧ (∀ ref : ℤ, getDay ref = 3 →
        getCustomWeekId "fri" ref = getCustomWeekId "fri" (ref - 5)) := by
  constructor
  · intro ref sd t h
    obtain ⟨ht0, ht7⟩ := dayMap_bounds sd t h
    refine ⟨ref - (if getDay ref - t < 0 then getDay ref - t + 7
        else getDay ref - t),
      getWeekStartDate_eq sd t ref h, ?_, ?_, ?_, ?_, ?_⟩
    · simp only [getDay]
      split_ifs <;> omega
    · simp only [getDay]
      split_ifs <;> omega
    · intro d hd hdr
      simp only [getDay] at hd ⊢
      split_ifs <;> omega
    · intro he
      simp only [getDay] at he ⊢
      split_ifs <;> omega
    · unfold getCustomWeekId
      rw [getWeekStartDate_eq sd t ref h]
      rfl
  · intro ref h3
    have h5 : dayMap "fri" = some 5 := rfl
    have hws : getWeekStartDate "fri" ref
        = getWeekStartDate "fri" (ref - 5) := by
      rw [getWeekStartDate_eq "fri" 5 ref h5,
        getWeekStartDate_eq "fri" 5 (ref - 5) h5]
      simp only [getDay] at h3 ⊢
      simp only [Option.some.injEq]
      split_ifs <;> omega
    unfold getCustomWeekId
    rw [hws]

/-- Witness for C2 at the concrete Wednesday 2026-02-11 (civil day 20495):
start-day Friday yields the preceding Friday 2026-02-06 as week start, and
the same weekId as that Friday itself. -/
theorem c2_week_id_witness :
    (∃ ws : ℤ, getWeekStartDate "fri" 20495 = some ws
        ∧ getDay ws = 5
        ∧ ws ≤ 20495
        ∧ (∀ d : ℤ, getDay d = 5 → d ≤ 20495 → d ≤ ws)
        ∧ (getDay 20495 = 5 → ws = 20495)
        ∧ getCustomWeekId "fri" 20495 = some (formatDaysYMD ws))
    ∧ getCustomWeekId "fri" 20495 = getCustomWeekId "fri" (20495 - 5) :=
  ⟨c2_week_id.1 20495 "fri" 5 (by decide), c2_week_id.2 20495 (by decide)⟩

/-- C3: Startup recovery precedence is draft > matching current-week
snapshot > fresh plan: a present non-empty draft is returned dirty
(whatever week it belongs to); otherwise a current-week snapshot is
returned clean exactly when its weekId matches today's; otherwise a fresh
all-42-empty plan is returned clean. -/
theorem c3_load_on_startup :
    ∀ (store : Store) (todayId : String),
      (∀ d : PlanObj, store.draft = some d → d.length > 0 →
        loadOnStartup store todayId = (d, true))
      ∧ ((store.draft = none ∨ store.draft = some ([] : PlanObj)) →
          ∀ e : HistEntry, store.current = some e → e.weekId = todayId →
            loadOnStartup store todayId = (e.plan, false))
      ∧ ((store.draft = none ∨ store.draft = some ([] : PlanObj)) →
          (∀ e : HistEntry, store.current = some e → e.weekId ≠ todayId) →
            loadOnStartup store todayId = (createEmptyPlan, false))
      ∧ createEmptyPlan = slotKeys.map (fun k => (k, (none : Option String)))
      ∧ slotKeys.length = 42 := by
  intro store todayId
  refine ⟨?_, ?_, ?_, by decide, by decide⟩
  · intro d hd hlen
    simp [loadOnStartup, hd, hlen]
  · rintro (hd | hd) e he heq <;>
      simp [loadOnStartup, hd, he, heq]
  · rintro (hd | hd) hcur <;>
      cases hc : store.current with
      | none => simp [loadOnStartup, hd, hc]
      | some e => simp [loadOnStartup, hd, hc, hcur e hc]

/-- Witness for C3: a stored one-slot draft wins and is restored dirty. -/
theorem c3_load_on_startup_witness :
    loadOnStartup
        ⟨some [("mon-lunch-steve", some "omelette")], none, []⟩ "2026-02-06"
      = ([("mon-lunch-steve", some "omelette")], true) :=
  (c3_load_on_startup
      ⟨some [("mon-lunch-steve", some "omelette")], none, []⟩ "2026-02-06").1
    [("mon-lunch-steve", some "omelette")] rfl (by decide)

/-- C4 counterexample: the claim quantifies over every starting history
list, but from a 13-entry stored list (longer than the documented cap, as
an externally written or corrupted store can contain) saving an entry
whose weekId already occurs does not leave the length unchanged — the
unconditional cap truncates 13 to 12. -/
theorem c4_history_counterexample :
    (∃ h ∈ hist13, h.weekId = (mkEntry "2026-01-02").weekId)
    ∧ (savePlanHistory hist13 (mkEntry "2026-01-02")).length
        ≠ hist13.length := by
  decide

/-- C4 amended: for every starting history list of at most 12 entries
(the bound the cap itself maintains), saving with an already-present
weekId overwrites the first matching entry in place leaving the length
unchanged; saving a fresh weekId prepends (capped at 12, so from a full
12-entry list the tail entry — the oldest by insertion order, regardless
of weekId value — is evicted); and the stored list never exceeds 12. -/
theorem c4_history_invariant :
    ∀ (hist : List HistEntry) (e : HistEntry), hist.length ≤ 12 →
      (∀ i : ℕ, hist.findIdx? (fun x => x.weekId = e.weekId) = some i →
        savePlanHistory hist e = hist.set i e
        ∧ (savePlanHistory hist e).length = hist.length)
      ∧ (hist.findIdx? (fun x => x.weekId = e.weekId) = none →
          savePlanHistory hist e = (e :: hist).take 12
          ∧ (hist.length < 12 → savePlanHistory hist e = e :: hist)
          ∧ (hist.length = 12 →
              savePlanHistory hist e = e :: hist.dropLast))
      ∧ (∀ (hist2 : List HistEntry) (e2 : HistEntry),
          (savePlanHistory hist2 e2).length ≤ 12) := by
  intro hist e hlen
  refine ⟨?_, ?_, ?_⟩
  · intro i hi
    have hset : (hist.set i e).length = hist.length := List.length_set ..
    rw [savePlanHistory_eq_found hist e i hi, if_neg (by omega)]
    exact ⟨rfl, hset⟩
  · intro hnone
    rw [savePlanHistory_eq_fresh hist e hnone]
    by_cases hc : hist.length = 12
    · have hgt : (e :: hist).length > 12 := by simp [hc]
      rw [if_pos hgt]
      refine ⟨rfl, fun h12 => by omega, fun _ => ?_⟩
      rw [show (12 : ℕ) = 11 + 1 from rfl, List.take_succ_cons,
        List.dropLast_eq_take, hc]
    · have hng : ¬ (e :: hist).length > 12 := by
        simp only [List.length_cons]
        omega
      rw [if_neg hng]
      exact ⟨(List.take_of_length_le (by simp only [List.length_cons]; omega)).symm,
        fun _ => rfl, fun h12 => absurd h12 hc⟩
  · intro hist2 e2
    cases hf : hist2.findIdx? (fun x => x.weekId = e2.weekId) with
    | some i =>
        rw [savePlanHistory_eq_found hist2 e2 i hf]
        split_ifs with hc
        · simp [List.length_take]
        · omega
    | none =>
        rw [savePlanHistory_eq_fresh hist2 e2 hf]
        split_ifs with hc
        · simp [List.length_take]
        · omega

/-- Witness for C4 amended: saving a fresh weekId into a one-entry history
prepends it. -/
theorem c4_history_invariant_witness :
    savePlanHistory [mkEntry "2026-01-30"] (mkEntry "2026-02-06")
      = [mkEntry "2026-02-06", mkEntry "2026-01-30"] :=
  (((c4_history_invariant [mkEntry "2026-01-30"] (mkEntry "2026-02-06")
      (by decide)).2.1 (by decide)).2.1 (by decide))

/-- C5 counterexample: one slot contributes two ingredient occurrences
whose lowercased names differ and whose units differ, yet — because the
merge key concatenates the lowercased name and the unit around a '|' that
may itself occur in the name — they are merged into a single line item. -/
theorem c5_merge_key_counterexample :
    slotIngredients barNameCatalog barNamePlan "mon-lunch-steve"
      = [⟨"a|x", 1, "y"⟩, ⟨"a", 2, "x|y"⟩]
    ∧ jsToLower "a|x" ≠ jsToLower "a"
    ∧ ("y" : String) ≠ "x|y"
    ∧ generateShoppingList barNameCatalog barNamePlan
        = [⟨"a|x", 3, "y"⟩] := by
  decide

/-- C5 amended: merging is governed by equality of the merge-key strings;
whenever the lowercased ingredient names are free of the separator
character '|', two occurrences share a merge key if and only if their
names are equal case-insensitively and their units are exactly equal.
Names containing '|' can collide as the counterexample shows. -/
theorem c5_merge_key_iff :
    ∀ (i1 i2 : Ingredient),
      '|' ∉ (jsToLower i1.name).data →
      '|' ∉ (jsToLower i2.name).data →
      (mkMapKey i1 = mkMapKey i2
        ↔ (jsToLower i1.name = jsToLower i2.name ∧ i1.unit = i2.unit)) :=
  fun i1 i2 h1 h2 => mkMapKey_eq_iff i1 i2 h1 h2

/-- Witness for C5 amended: "Eggs" and "EGGS" with equal units share a
merge key. -/
theorem c5_merge_key_iff_witness :
    mkMapKey ⟨"Eggs", 3, ""⟩ = mkMapKey ⟨"EGGS", 1, ""⟩
    ∧ '|' ∉ (jsToLower "Eggs").data :=
  ⟨(c5_merge_key_iff ⟨"Eggs", 3, ""⟩ ⟨"EGGS", 1, ""⟩ (by decide)
      (by decide)).mpr ⟨by decide, rfl⟩, by decide⟩

/-- The canonical slot order with its first two slots exchanged is a
permutation of the canonical order. -/
theorem slotKeysSwapped_perm : slotKeysSwapped.Perm slotKeys := by
  have h : slotKeys
      = "mon-lunch-steve" :: "mon-lunch-zoe" :: slotKeys.drop 2 := by decide
  rw [h]
  exact List.Perm.swap _ _ _

/-- C6 counterexample: visiting the 42 slots in a permuted order does not
always reproduce the canonical output list: two distinct line items whose
display names are equal tie in the name sort, and the stable sort then
keeps their first-encounter order, which depends on the visitation order. -/
theorem c6_order_counterexample :
    slotKeysSwapped.Perm slotKeys
    ∧ generateShoppingListOrder slotKeysSwapped butterCatalog butterPlan
        ≠ generateShoppingListOrder slotKeys butterCatalog butterPlan
    ∧ generateShoppingList butterCatalog butterPlan
        = generateShoppingListOrder slotKeys butterCatalog butterPlan :=
  ⟨slotKeysSwapped_perm, by decide, rfl⟩

/-- C6 amended: aggregation is order-independent up to the merged totals:
visiting the slots in any permutation of the canonical order yields the
same summed quantity for every merge key, and the same collection of merge
keys (as a permutation).  The tie order of equal-named entries in the
sorted output, and the first-encounter name casing and unit of a merged
entry, are the only order-dependent aspects, as the counterexample shows. -/
theorem c6_order_independence :
    ∀ (meals : List Meal) (plan : PlanObj) (keys : List String),
      keys.Perm slotKeys →
      (∀ k : String,
        qtyAt (consolidateOrder keys meals plan) k
          = qtyAt (consolidateOrder slotKeys meals plan) k)
      ∧ ((consolidateOrder keys meals plan).map Prod.fst).Perm
          ((consolidateOrder slotKeys meals plan).map Prod.fst) := by
  intro meals plan keys hperm
  constructor
  · intro k
    rw [qtyAt_consolidateOrder, qtyAt_consolidateOrder]
    exact (hperm.map (slotContribution meals plan k)).sum_eq
  · apply List.perm_of_nodup_nodup_toFinset_eq
      (nodup_keys_consolidateOrder ..) (nodup_keys_consolidateOrder ..)
    ext k
    simp only [List.mem_toFinset, mem_keys_consolidateOrder, hperm.mem_iff]

/-- Witness for C6 amended: with the first two slots swapped, the Butter
totals agree with the canonical order. -/
theorem c6_order_independence_witness :
    qtyAt (consolidateOrder slotKeysSwapped butterCatalog butterPlan) "butter|g"
      = qtyAt (consolidateOrder slotKeys butterCatalog butterPlan) "butter|g" :=
  (c6_order_independence butterCatalog butterPlan slotKeysSwapped
    slotKeysSwapped_perm).1 "butter|g"

/-- C7: The plan's key set is invariant: starting from a plan whose keys
are exactly the 42 canonical slot keys, assigning a recipe to a slot,
emptying a slot, and clear-all change slot values only and leave the key
list exactly equal to the 42-key universe; a freshly created empty plan
has exactly these 42 keys, all empty. -/
theorem c7_key_set_invariant :
    ∀ (plan : PlanObj) (key mealId : String),
      plan.map Prod.fst = slotKeys →
      ((key ∈ slotKeys →
        (assignMealPlan plan key mealId).map Prod.fst = slotKeys
        ∧ (removeMealPlan plan key).map Prod.fst = slotKeys)
      ∧ (clearWeekPlan plan).map Prod.fst = slotKeys)
      ∧ createEmptyPlan.map Prod.fst = slotKeys
      ∧ (∀ k ∈ slotKeys, objGet createEmptyPlan k = some none)
      ∧ slotKeys.length = 42 := by
  intro plan key mealId hkeys
  refine ⟨⟨?_, ?_⟩, by decide, by decide, by decide⟩
  · intro hmem
    constructor
    · unfold assignMealPlan
      rw [keys_objSet_of_mem plan key _ (by rw [hkeys]; exact hmem), hkeys]
    · unfold removeMealPlan
      rw [keys_objSet_of_mem plan key _ (by rw [hkeys]; exact hmem), hkeys]
  · unfold clearWeekPlan
    rw [keys_foldl_objSet_none slotKeys plan
      (fun k hk => by rw [hkeys]; exact hk), hkeys]

/-- Witness for C7: assigning and removing on a fresh empty plan keep the
42-key universe. -/
theorem c7_key_set_invariant_witness :
    (assignMealPlan createEmptyPlan "mon-lunch-steve" "omelette").map Prod.fst
        = slotKeys
    ∧ (removeMealPlan createEmptyPlan "mon-lunch-steve").map Prod.fst
        = slotKeys :=
  (c7_key_set_invariant createEmptyPlan "mon-lunch-steve" "omelette"
    (by decide)).1.1 (by decide)

/-- C8: Save round-trip with snapshot isolation: a successful save stores,
both as the current-week snapshot and in the history list, an entry whose
plan deep-equals the live plan at the moment of saving; subsequently
mutating the live plan by assign, remove or clear-all leaves the stored
records untouched. -/
theorem c8_snapshot_isolation :
    ∀ (st : AppState) (wid wl sa : String),
      st.store.history.length ≤ 12 →
      ((savePlanRun st wid wl sa .success).1.store.current
          = some ⟨wid, wl, sa, st.currentPlan⟩
        ∧ (⟨wid, wl, sa, st.currentPlan⟩ : HistEntry)
            ∈ (savePlanRun st wid wl sa .success).1.store.history)
      ∧ (∀ (key mid : String) (dOk : Bool),
          (assignMealState (savePlanRun st wid wl sa .success).1 key mid
              dOk).store.history
            = (savePlanRun st wid wl sa .success).1.store.history
          ∧ (assignMealState (savePlanRun st wid wl sa .success).1 key mid
              dOk).store.current
            = (savePlanRun st wid wl sa .success).1.store.current)
      ∧ (∀ (key : String) (dOk : Bool),
          (removeMealState (savePlanRun st wid wl sa .success).1 key
              dOk).store.history
            = (savePlanRun st wid wl sa .success).1.store.history
          ∧ (removeMealState (savePlanRun st wid wl sa .success).1 key
              dOk).store.current
            = (savePlanRun st wid wl sa .success).1.store.current)
      ∧ (∀ dOk : Bool,
          (clearWeekState (savePlanRun st wid wl sa .success).1
              dOk).store.history
            = (savePlanRun st wid wl sa .success).1.store.history
          ∧ (clearWeekState (savePlanRun st wid wl sa .success).1
              dOk).store.current
            = (savePlanRun st wid wl sa .success).1.store.current) := by
  intro st wid wl sa hlen
  refine ⟨⟨?_, ?_⟩, ?_, ?_, ?_⟩
  · simp [savePlanRun, deepCopyPlan_eq]
  · simp only [savePlanRun]
    rw [deepCopyPlan_eq]
    exact mem_savePlanHistory _ _ hlen
  · intro key mid dOk
    cases dOk <;> exact ⟨rfl, rfl⟩
  · intro key dOk
    cases dOk <;> exact ⟨rfl, rfl⟩
  · intro dOk
    cases dOk <;> exact ⟨rfl, rfl⟩

/-- Witness for C8 at a concrete one-slot state: the saved snapshot equals
the live plan at save time. -/
theorem c8_snapshot_isolation_witness :
    (savePlanRun ⟨[("mon-lunch-steve", some "omelette")], true,
        ⟨none, none, []⟩⟩ "2026-02-06" "6 Feb - 12 Feb 2026" "t"
        .success).1.store.current
      = some ⟨"2026-02-06", "6 Feb - 12 Feb 2026", "t",
          [("mon-lunch-steve", some "omelette")]⟩
    ∧ (⟨"2026-02-06", "6 Feb - 12 Feb 2026", "t",
          [("mon-lunch-steve", some "omelette")]⟩ : HistEntry)
        ∈ (savePlanRun ⟨[("mon-lunch-steve", some "omelette")], true,
            ⟨none, none, []⟩⟩ "2026-02-06" "6 Feb - 12 Feb 2026" "t"
            .success).1.store.history :=
  (c8_snapshot_isolation ⟨[("mon-lunch-steve", some "omelette")], true,
      ⟨none, none, []⟩⟩ "2026-02-06" "6 Feb - 12 Feb 2026" "t"
    (by decide)).1

/-- C9: A storage failure during an explicit save surfaces the
user-visible error and leaves the session unsaved — the dirty flag stays
true and the draft record is untouched (it is removed only by a fully
successful save) — while a storage failure during the automatic draft
persist is swallowed silently, raising no error and leaving state
unchanged. -/
theorem c9_error_handling :
    ∀ (st : AppState) (wid wl sa : String) (oc : SaveOutcome),
      st.hasUnsavedChanges = true →
      oc ≠ SaveOutcome.success →
      ((savePlanRun st wid wl sa oc).2 = true
        ∧ (savePlanRun st wid wl sa oc).1.hasUnsavedChanges = true
        ∧ (savePlanRun st wid wl sa oc).1.store.draft = st.store.draft)
      ∧ ((savePlanRun st wid wl sa .success).1.store.draft = none
        ∧ (savePlanRun st wid wl sa .success).2 = false)
      ∧ (∀ ok : Bool, (saveDraftRun st ok).2 = false)
      ∧ (saveDraftRun st false).1 = st := by
  intro st wid wl sa oc hdirty hne
  refine ⟨?_, ⟨rfl, rfl⟩, fun ok => by cases ok <;> rfl, rfl⟩
  cases oc with
  | success => exact absurd rfl hne
  | failCurrentWrite => exact ⟨rfl, hdirty, rfl⟩
  | failHistoryWrite => exact ⟨rfl, hdirty, rfl⟩

/-- Witness for C9 at a concrete dirty state with a failing history
write: the error is surfaced and the draft and dirty flag survive. -/
theorem c9_error_handling_witness :
    ((savePlanRun ⟨[], true, ⟨some [("a", none)], none, []⟩⟩
          "w" "l" "t" .failHistoryWrite).2 = true
      ∧ (savePlanRun ⟨[], true, ⟨some [("a", none)], none, []⟩⟩
          "w" "l" "t" .failHistoryWrite).1.hasUnsavedChanges = true
      ∧ (savePlanRun ⟨[], true, ⟨some [("a", none)], none, []⟩⟩
          "w" "l" "t" .failHistoryWrite).1.store.draft
          = some [("a", none)]) :=
  (c9_error_handling ⟨[], true, ⟨some [("a", none)], none, []⟩⟩
    "w" "l" "t" .failHistoryWrite rfl (by decide)).1

/-- C10: The aggregator reads only the 42 canonical slot keys: two plan
objects that agree on their values at the canonical keys (whatever extra
keys either contains) produce identical shopping lists, and a plan missing
a canonical key behaves exactly as if it held that key with an empty
value. -/
theorem c10_reads_only_slots :
    (∀ (meals : List Meal) (p1 p2 : PlanObj),
      (∀ k ∈ slotKeys, objGet p1 k = objGet p2 k) →
      generateShoppingList meals p1 = generateShoppingList meals p2)
    ∧ (∀ (meals : List Meal) (p : PlanObj) (k : String),
        objGet p k = none →
        generateShoppingList meals (objSet p k none)
          = generateShoppingList meals p) := by
  constructor
  · intro meals p1 p2 h
    exact generateShoppingList_congr meals p1 p2 (fun k hk => by rw [h k hk])
  · intro meals p k hget
    apply generateShoppingList_congr
    intro k2 hk2
    rw [objGet_objSet]
    by_cases he : k2 = k
    · subst he
      rw [if_pos rfl, hget]
      rfl
    · rw [if_neg he]

/-- Witness for C10: an extra non-canonical key does not change the
output, and adding an explicitly empty canonical key does not either. -/
theorem c10_reads_only_slots_witness :
    generateShoppingList DEFAULT_MEALS
        [("mon-lunch-steve", some "omelette"), ("not-a-slot", some "junk")]
      = generateShoppingList DEFAULT_MEALS
        [("mon-lunch-steve", some "omelette")]
    ∧ generateShoppingList DEFAULT_MEALS
        (objSet [("mon-lunch-steve", some "omelette")] "tue-dinner-zoe" none)
      = generateShoppingList DEFAULT_MEALS
        [("mon-lunch-steve", some "omelette")] :=
  ⟨c10_reads_only_slots.1 DEFAULT_MEALS _ _ (by decide),
   c10_reads_only_slots.2 DEFAULT_MEALS _ "tue-dinner-zoe" (by decide)⟩

end MealPlanner
